import Mathlib

/-
Verification of the waitfreequeue repository (marcusspangenberg/waitfreequeue).

The repository supplies two bounded ring-buffer queues as C++ headers:

  * src/WaitFreeMPSCQueue.h : multi-producer single-consumer queue, a ring of
    S slots; each slot holds a value and an occupancy flag isUsed_.  The
    counters head_ and tail_ are unsigned machine integers that wrap; every
    use masks them with S-1.
  * src/WaitFreeSPSCQueue.h : single-producer single-consumer queue, a ring of
    S value slots plus a shared exact size_ counter; head_ and tail_ are kept
    already masked in [0, S).
  * src/mpsc_queue.h and src/spsc_queue.h : the same two algorithms inside
    namespace waitfree, differing from the first pair only in the size and
    alignment passed to the allocator.

This development is a shallow embedding of the sequential behaviour of those
operations.  Machine counters are modelled as Nat reduced modulo 2^32 at each
update (the source type uint_fast32_t is at least 32 bits wide; the
wrap-independence theorem for claim C9 shows the behaviour does not depend on
the width).  Slot storage that may or may not hold a constructed T is
modelled as Option.  Each definition cites the source function it embeds.
-/

/-- Wrap modulus of the MPSC counters: the spec describes head_ and tail_ as
32-bit unsigned counters; increments wrap modulo 2^32. -/
def counterWrap : Nat := 2 ^ 32

/-- From src/WaitFreeMPSCQueue.h, isPowerOfTwo (same function in all four
headers): return (size AND (size - 1)) == 0.  On Nat the truncated
subtraction gives 0 - 1 = 0, and 0 AND 0 == 0 holds, which agrees with the
C++ evaluation at size == 0 (there 0 AND 0xFF..F == 0 as well). -/
def isPowerOfTwo (size : Nat) : Bool := (size &&& (size - 1)) == 0

/-- From src/WaitFreeSPSCQueue.h, roundUpToMultipleOf: used only to size the
allocation in the constructor. -/
def roundUpToMultipleOf (size : Nat) (multiple : Nat) : Nat :=
  let remaining := size % multiple
  if remaining == 0 then size else size + (multiple - remaining)

/-- From src/WaitFreeMPSCQueue.h, struct element: a value slot together with
its occupancy flag.  value_ is none while the slot storage holds no
constructed T (the backing memory is zeroed at construction). -/
structure MPSCElement (α : Type) where
  value_ : Option α
  isUsed_ : Bool
deriving DecidableEq

/-- A zeroed slot, as produced by memset in the constructor. -/
def defaultElem {α : Type} : MPSCElement α := ⟨none, false⟩

/-- From src/WaitFreeMPSCQueue.h, class WaitFreeMPSCQueue: the slot array and
the two consumer/producer counters.  S, a template parameter in the source,
is passed explicitly to each operation; elements_.length = S is maintained. -/
structure WaitFreeMPSCQueue (α : Type) where
  elements_ : List (MPSCElement α)
  head_ : Nat
  tail_ : Nat
deriving DecidableEq

/-- From src/WaitFreeMPSCQueue.h, the constructor: allocates S slots and
zeroes them, head_ = 0, tail_ = 0. -/
def WaitFreeMPSCQueue.init (α : Type) (S : Nat) : WaitFreeMPSCQueue α :=
  ⟨List.replicate S ⟨none, false⟩, 0, 0⟩

/-- From src/WaitFreeMPSCQueue.h, push: tail = tail_.fetch_add(1) AND (S-1);
construct the value in slot tail; store isUsed_ = 1.  The fetch_add wraps in
the unsigned counter, modelled modulo counterWrap. -/
def WaitFreeMPSCQueue.push {α : Type} (S : Nat) (q : WaitFreeMPSCQueue α) (v : α) :
    WaitFreeMPSCQueue α :=
  let tail := q.tail_ &&& (S - 1)
  ⟨q.elements_.set tail ⟨some v, true⟩, q.head_, (q.tail_ + 1) % counterWrap⟩

/-- From src/WaitFreeMPSCQueue.h, pop: head = head_.fetch_add(1) AND (S-1);
if the slot is not used, head_.fetch_sub(1) rolls the reservation back and
the function returns false; otherwise the value is transferred out (the slot
storage keeps the moved-from or copied-from object, which the queue no longer
owns) and isUsed_ = 0 is stored.  The result is (returned bool, item out
parameter, queue state after the call); item is only meaningful when the
bool is true. -/
def WaitFreeMPSCQueue.pop {α : Type} (S : Nat) (q : WaitFreeMPSCQueue α) :
    Bool × Option α × WaitFreeMPSCQueue α :=
  let head := q.head_ &&& (S - 1)
  let afterAdd : WaitFreeMPSCQueue α := ⟨q.elements_, (q.head_ + 1) % counterWrap, q.tail_⟩
  let e := afterAdd.elements_.getD head defaultElem
  if e.isUsed_ = false then
    (false, none,
      ⟨afterAdd.elements_, (afterAdd.head_ + (counterWrap - 1)) % counterWrap, afterAdd.tail_⟩)
  else
    (true, e.value_, ⟨afterAdd.elements_.set head ⟨e.value_, false⟩, afterAdd.head_, afterAdd.tail_⟩)

/-- From src/WaitFreeMPSCQueue.h, empty: load head_, mask it, and report
whether the slot the consumer would next claim is unused. -/
def WaitFreeMPSCQueue.empty {α : Type} (S : Nat) (q : WaitFreeMPSCQueue α) : Bool :=
  (q.elements_.getD (q.head_ &&& (S - 1)) defaultElem).isUsed_ == false

/-- From src/WaitFreeMPSCQueue.h, the destructor loop: when T is not
trivially destructible, every slot whose isUsed_ flag is 1 has its value
destroyed.  The returned list collects the destroyed values in slot order;
for trivially destructible T the loop is compiled out. -/
def WaitFreeMPSCQueue.destructorDestroyed {α : Type} (trivialDtor : Bool)
    (q : WaitFreeMPSCQueue α) : List α :=
  if trivialDtor then []
  else q.elements_.filterMap (fun e => if e.isUsed_ then e.value_ else none)

/-- From src/WaitFreeSPSCQueue.h, class WaitFreeSPSCQueue: the value slots,
the shared exact size_ counter and the producer/consumer private indices,
which the source keeps already masked into [0, S). -/
structure WaitFreeSPSCQueue (α : Type) where
  elements_ : List (Option α)
  size_ : Nat
  head_ : Nat
  tail_ : Nat
deriving DecidableEq

/-- From src/WaitFreeSPSCQueue.h, the constructor: zeroed storage, size_ = 0,
head_ = 0, tail_ = 0. -/
def WaitFreeSPSCQueue.init (α : Type) (S : Nat) : WaitFreeSPSCQueue α :=
  ⟨List.replicate S none, 0, 0, 0⟩

/-- From src/WaitFreeSPSCQueue.h, push: tail = tail_;
tail_ = (tail_ + 1) AND (S-1); construct the value at elements_[tail];
size_.fetch_add(1). -/
def WaitFreeSPSCQueue.push {α : Type} (S : Nat) (q : WaitFreeSPSCQueue α) (v : α) :
    WaitFreeSPSCQueue α :=
  let tail := q.tail_
  ⟨q.elements_.set tail (some v), q.size_ + 1, q.head_, (q.tail_ + 1) &&& (S - 1)⟩

/-- From src/WaitFreeSPSCQueue.h, pop: if size_ == 0 return false with no
state change; otherwise head = head_; head_ = (head_ + 1) AND (S-1); the
value at elements_[head] is transferred to the out parameter;
size_.fetch_sub(1). -/
def WaitFreeSPSCQueue.pop {α : Type} (S : Nat) (q : WaitFreeSPSCQueue α) :
    Bool × Option α × WaitFreeSPSCQueue α :=
  if q.size_ = 0 then (false, none, q)
  else
    let head := q.head_
    (true, q.elements_.getD head none,
      ⟨q.elements_, q.size_ - 1, (q.head_ + 1) &&& (S - 1), q.tail_⟩)

/-- From src/WaitFreeSPSCQueue.h, size: return size_.load(). -/
def WaitFreeSPSCQueue.size {α : Type} (q : WaitFreeSPSCQueue α) : Nat := q.size_

/-- From src/WaitFreeSPSCQueue.h, the destructor loop: when T is not
trivially destructible, the size_ values starting at head_ are destroyed in
place, reading slot (head_ + i) AND (S-1) for i below size_. -/
def WaitFreeSPSCQueue.destructorDestroyed {α : Type} (S : Nat) (trivialDtor : Bool)
    (q : WaitFreeSPSCQueue α) : List α :=
  if trivialDtor then []
  else (List.range q.size_).filterMap (fun i => q.elements_.getD ((q.head_ + i) &&& (S - 1)) none)

/-- One sequential queue operation: a push of a value, or a pop. -/
inductive QOp (α : Type) where
  | push (v : α) : QOp α
  | pop : QOp α
deriving DecidableEq

/-- Run a list of operations on the MPSC queue sequentially, collecting the
values returned by the successful pops in order. -/
def runMPSC {α : Type} (S : Nat) :
    WaitFreeMPSCQueue α → List (QOp α) → WaitFreeMPSCQueue α × List α
  | q, [] => (q, [])
  | q, QOp.push v :: rest => runMPSC S (q.push S v) rest
  | q, QOp.pop :: rest =>
      let r := q.pop S
      let rem := runMPSC S r.2.2 rest
      (rem.1, (if r.1 then r.2.1.toList else []) ++ rem.2)

/-- Run a list of operations on the SPSC queue sequentially, collecting the
values returned by the successful pops in order. -/
def runSPSC {α : Type} (S : Nat) :
    WaitFreeSPSCQueue α → List (QOp α) → WaitFreeSPSCQueue α × List α
  | q, [] => (q, [])
  | q, QOp.push v :: rest => runSPSC S (q.push S v) rest
  | q, QOp.pop :: rest =>
      let r := q.pop S
      let rem := runSPSC S r.2.2 rest
      (rem.1, (if r.1 then r.2.1.toList else []) ++ rem.2)

/-- The values pushed by a list of operations, in order. -/
def pushedOf {α : Type} : List (QOp α) → List α
  | [] => []
  | QOp.push v :: rest => v :: pushedOf rest
  | QOp.pop :: rest => pushedOf rest

/-- The dimensioning discipline: starting from n elements in flight, every
push happens while fewer than S elements are in flight (a successful pop
removes one; a pop on an empty queue removes none, matching truncated
subtraction at n = 0). -/
def inFlightOk {α : Type} (S : Nat) : Nat → List (QOp α) → Bool
  | _, [] => true
  | n, QOp.push _ :: rest => decide (n < S) && inFlightOk S (n + 1) rest
  | n, QOp.pop :: rest => inFlightOk S (n - 1) rest

/-- Call pop on the MPSC queue until it returns false (or the fuel runs out),
collecting the popped values. -/
def drainMPSC {α : Type} (S : Nat) : Nat → WaitFreeMPSCQueue α → WaitFreeMPSCQueue α × List α
  | 0, q => (q, [])
  | fuel + 1, q =>
      let r := q.pop S
      if r.1 then
        let rem := drainMPSC S fuel r.2.2
        (rem.1, r.2.1.toList ++ rem.2)
      else (r.2.2, [])

/-- Destructor side effects of a full MPSC lifecycle: run the operations from
a fresh queue, then destroy the queue.  In pop, the branch on
std::is_move_assignable_v selects move assignment (which never runs the slot
destructor) or copy assignment followed, when T is not trivially
destructible, by an explicit destructor call on the slot; so the values
destroyed during the run are exactly the popped ones when T is neither move
assignable nor trivially destructible, and none otherwise.  Queue
destruction then destroys the values still marked used. -/
def mpscDestroyedTotal {α : Type} (S : Nat) (moveAssignable trivialDtor : Bool)
    (ops : List (QOp α)) : List α :=
  let r := runMPSC S (WaitFreeMPSCQueue.init α S) ops
  (if moveAssignable = false ∧ trivialDtor = false then r.2 else []) ++
    r.1.destructorDestroyed trivialDtor

/-- Destructor side effects of a full SPSC lifecycle, with the same
per-branch destruction behaviour as mpscDestroyedTotal (the pop bodies of the
two queues share the transfer code). -/
def spscDestroyedTotal {α : Type} (S : Nat) (moveAssignable trivialDtor : Bool)
    (ops : List (QOp α)) : List α :=
  let r := runSPSC S (WaitFreeSPSCQueue.init α S) ops
  (if moveAssignable = false ∧ trivialDtor = false then r.2 else []) ++
    WaitFreeSPSCQueue.destructorDestroyed S trivialDtor r.1

namespace waitfree

/-- From src/mpsc_queue.h, waitfree::mpsc_queue::push.  The element struct of
mpsc_queue (value_, is_used_) is represented by the same MPSCElement slot
type; the classes differ only in the allocation size and alignment, which the
behavioural model does not carry. -/
def mpsc_queue_push {α : Type} (S : Nat) (q : WaitFreeMPSCQueue α) (v : α) :
    WaitFreeMPSCQueue α :=
  let tail := q.tail_ &&& (S - 1)
  ⟨q.elements_.set tail ⟨some v, true⟩, q.head_, (q.tail_ + 1) % counterWrap⟩

/-- From src/mpsc_queue.h, waitfree::mpsc_queue::pop. -/
def mpsc_queue_pop {α : Type} (S : Nat) (q : WaitFreeMPSCQueue α) :
    Bool × Option α × WaitFreeMPSCQueue α :=
  let head := q.head_ &&& (S - 1)
  let afterAdd : WaitFreeMPSCQueue α := ⟨q.elements_, (q.head_ + 1) % counterWrap, q.tail_⟩
  let e := afterAdd.elements_.getD head defaultElem
  if e.isUsed_ = false then
    (false, none,
      ⟨afterAdd.elements_, (afterAdd.head_ + (counterWrap - 1)) % counterWrap, afterAdd.tail_⟩)
  else
    (true, e.value_, ⟨afterAdd.elements_.set head ⟨e.value_, false⟩, afterAdd.head_, afterAdd.tail_⟩)

/-- From src/mpsc_queue.h, waitfree::mpsc_queue::empty. -/
def mpsc_queue_empty {α : Type} (S : Nat) (q : WaitFreeMPSCQueue α) : Bool :=
  (q.elements_.getD (q.head_ &&& (S - 1)) defaultElem).isUsed_ == false

/-- From src/spsc_queue.h, waitfree::spsc_queue::push. -/
def spsc_queue_push {α : Type} (S : Nat) (q : WaitFreeSPSCQueue α) (v : α) :
    WaitFreeSPSCQueue α :=
  let tail := q.tail_
  ⟨q.elements_.set tail (some v), q.size_ + 1, q.head_, (q.tail_ + 1) &&& (S - 1)⟩

/-- From src/spsc_queue.h, waitfree::spsc_queue::pop. -/
def spsc_queue_pop {α : Type} (S : Nat) (q : WaitFreeSPSCQueue α) :
    Bool × Option α × WaitFreeSPSCQueue α :=
  if q.size_ = 0 then (false, none, q)
  else
    let head := q.head_
    (true, q.elements_.getD head none,
      ⟨q.elements_, q.size_ - 1, (q.head_ + 1) &&& (S - 1), q.tail_⟩)

/-- From src/spsc_queue.h, waitfree::spsc_queue::size. -/
def spsc_queue_size {α : Type} (q : WaitFreeSPSCQueue α) : Nat := q.size_

end waitfree

/-- Modelled from the spec, for the counter-wrap comparison of claim C9: the
same MPSC push but with a monotonically increasing, never wrapped tail
counter, masked on use. -/
def mpscPushNoWrap {α : Type} (S : Nat) (q : WaitFreeMPSCQueue α) (v : α) :
    WaitFreeMPSCQueue α :=
  ⟨q.elements_.set (q.tail_ % S) ⟨some v, true⟩, q.head_, q.tail_ + 1⟩

/-- Modelled from the spec, for the counter-wrap comparison of claim C9: the
same MPSC pop but with a never wrapped head counter, masked on use; the empty
case undoes the increment exactly. -/
def mpscPopNoWrap {α : Type} (S : Nat) (q : WaitFreeMPSCQueue α) :
    Bool × Option α × WaitFreeMPSCQueue α :=
  let head := q.head_ % S
  let e := q.elements_.getD head defaultElem
  if e.isUsed_ = false then
    (false, none, ⟨q.elements_, q.head_ + 1 - 1, q.tail_⟩)
  else
    (true, e.value_, ⟨q.elements_.set head ⟨e.value_, false⟩, q.head_ + 1, q.tail_⟩)

/-- Relation between a queue whose counters wrap modulo 2^32 and the
spec-side queue with unbounded counters: same slots, counters congruent. -/
def mpscCounterRel {α : Type} (q qI : WaitFreeMPSCQueue α) : Prop :=
  q.elements_ = qI.elements_ ∧ q.head_ = qI.head_ % counterWrap ∧ q.tail_ = qI.tail_ % counterWrap

/-- A concrete wrapped-counter MPSC state sitting just before the 2^32 wrap
boundary, used to exercise the counter-wrap simulation. -/
def wrapStateW : WaitFreeMPSCQueue Nat :=
  ⟨List.replicate 2 defaultElem, 2 ^ 32 - 1, 2 ^ 32 - 1⟩

/-- A concrete unbounded-counter state whose counters are congruent modulo
2^32 to those of wrapStateW. -/
def wrapStateI : WaitFreeMPSCQueue Nat :=
  ⟨List.replicate 2 defaultElem, 2 ^ 32 - 1, 3 * 2 ^ 32 - 1⟩

/-- Abstraction invariant for reachable MPSC states: l is the list of values
currently in the queue, oldest first.  The slots at offsets below l.length
from head_ (masked) hold exactly those values with isUsed_ set; every other
slot has isUsed_ clear; tail_ sits l.length positions after head_ modulo the
counter wrap. -/
def MPSCInv {α : Type} (S : Nat) (q : WaitFreeMPSCQueue α) (l : List α) : Prop :=
  q.elements_.length = S ∧ 0 < S ∧ q.head_ < counterWrap ∧ q.tail_ < counterWrap ∧
  q.tail_ = (q.head_ + l.length) % counterWrap ∧ l.length ≤ S ∧
  (∀ k, k < l.length → q.elements_.getD ((q.head_ + k) % S) defaultElem = ⟨l[k]?, true⟩) ∧
  (∀ j, j < S → (∀ k, k < l.length → j ≠ (q.head_ + k) % S) →
    (q.elements_.getD j defaultElem).isUsed_ = false)

/-- Abstraction invariant for reachable SPSC states: l is the list of values
currently in the queue, oldest first.  size_ counts them exactly; the slots
at offsets below l.length from head_ hold exactly those values; head_ and
tail_ stay masked in [0, S). -/
def SPSCInv {α : Type} (S : Nat) (q : WaitFreeSPSCQueue α) (l : List α) : Prop :=
  q.elements_.length = S ∧ 0 < S ∧ q.head_ < S ∧ q.tail_ < S ∧
  q.size_ = l.length ∧ l.length ≤ S ∧ q.tail_ = (q.head_ + l.length) % S ∧
  (∀ k, k < l.length → q.elements_.getD ((q.head_ + k) % S) none = l[k]?)

/-! General helper lemmas about masking, modular index arithmetic and lists. -/

theorem mask_eq_mod {S : Nat} (hpow : ∃ k, S = 2 ^ k) (x : Nat) : x &&& (S - 1) = x % S := by
  obtain ⟨k, rfl⟩ := hpow
  exact Nat.and_pow_two_sub_one_eq_mod x k

theorem getD_set_ne {β : Type} (l : List β) (i j : Nat) (a d : β) (h : i ≠ j) :
    (l.set i a).getD j d = l.getD j d := by
  simp [List.getD, List.getElem?_set_ne h]

theorem getD_set_self {β : Type} (l : List β) (i : Nat) (a d : β) (h : i < l.length) :
    (l.set i a).getD i d = a := by
  simp [List.getD, List.getElem?_set_self, h]

theorem getD_replicate {β : Type} (n j : Nat) (a d : β) (h : j < n) :
    (List.replicate n a).getD j d = a := by
  simp [List.getD, List.getElem?_replicate, h]

theorem offsets_mod_ne {S a k n : Nat} (hk : k < n) (hn : n < S) :
    (a + k) % S ≠ (a + n) % S := by
  intro h
  have h2 : k ≡ n [MOD S] := Nat.ModEq.add_left_cancel' a h
  have h3 : S ∣ n - k := (Nat.modEq_iff_dvd' (Nat.le_of_lt hk)).mp h2
  have h4 : S ≤ n - k := Nat.le_of_dvd (by omega) h3
  omega

theorem mod_roundtrip {m a : Nat} (h : a < m) : ((a + 1) % m + (m - 1)) % m = a := by
  rcases Nat.lt_or_ge (a + 1) m with h1 | h1
  · rw [Nat.mod_eq_of_lt h1]
    have h2 : a + 1 + (m - 1) = a + m := by omega
    rw [h2, Nat.add_mod_right, Nat.mod_eq_of_lt h]
  · have h2 : a + 1 = m := by omega
    have h3 : m - 1 = a := by omega
    rw [h2, Nat.mod_self, Nat.zero_add, h3, Nat.mod_eq_of_lt h]

theorem add_mod_mod_of_dvd {S U : Nat} (a k : Nat) (h : S ∣ U) :
    (a % U + k) % S = (a + k) % S := by
  rw [Nat.add_mod (a % U) k, Nat.mod_mod_of_dvd a h, ← Nat.add_mod]

/-! SPSC queue: the abstraction invariant is preserved by push and pop. -/

theorem spscInv_init (α : Type) (S : Nat) (h0 : 0 < S) :
    SPSCInv S (WaitFreeSPSCQueue.init α S) [] := by
  refine ⟨List.length_replicate S none, h0, h0, h0, rfl, Nat.zero_le S,
    by simp [WaitFreeSPSCQueue.init], ?_⟩
  intro k hk
  simp at hk

theorem spscInv_push {α : Type} {S : Nat} {q : WaitFreeSPSCQueue α} {l : List α}
    (hpow : ∃ k, S = 2 ^ k) (hInv : SPSCInv S q l) (hlen : l.length < S) (v : α) :
    SPSCInv S (q.push S v) (l ++ [v]) := by
  obtain ⟨hL, hS, hh, ht, hsz, hle, hta, hread⟩ := hInv
  simp only [WaitFreeSPSCQueue.push]
  refine ⟨by simp [hL], hS, hh, ?_, by simp [hsz], by simp; omega, ?_, ?_⟩
  · rw [mask_eq_mod hpow]
    exact Nat.mod_lt _ hS
  · rw [mask_eq_mod hpow, hta, Nat.mod_add_mod, List.length_append, List.length_cons,
      List.length_nil, Nat.add_assoc]
  · intro k hk
    simp only [List.length_append, List.length_cons, List.length_nil] at hk
    rcases Nat.lt_or_ge k l.length with hk2 | hk2
    · have hne : q.tail_ ≠ (q.head_ + k) % S := by
        rw [hta]
        exact (offsets_mod_ne hk2 hlen).symm
      rw [getD_set_ne _ _ _ _ _ hne, hread k hk2, List.getElem?_append_left hk2]
    · have hk3 : k = l.length := by omega
      subst hk3
      have hidx : (q.head_ + l.length) % S = q.tail_ := hta.symm
      rw [hidx, getD_set_self _ _ _ _ (by omega), List.getElem?_concat_length]

theorem spsc_pop_zero {α : Type} {S : Nat} {q : WaitFreeSPSCQueue α} (h : q.size_ = 0) :
    q.pop S = (false, none, q) := by
  simp [WaitFreeSPSCQueue.pop, h]

theorem spscInv_pop_cons {α : Type} {S : Nat} {q : WaitFreeSPSCQueue α} {v : α} {l : List α}
    (hpow : ∃ k, S = 2 ^ k) (hInv : SPSCInv S q (v :: l)) :
    (q.pop S).1 = true ∧ (q.pop S).2.1 = some v ∧ SPSCInv S (q.pop S).2.2 l := by
  obtain ⟨hL, hS, hh, ht, hsz, hle, hta, hread⟩ := hInv
  simp only [List.length_cons] at hsz hle hta
  have hne : ¬ q.size_ = 0 := by omega
  have hv : q.elements_.getD q.head_ none = some v := by
    have h0 := hread 0 (by simp)
    simpa [Nat.mod_eq_of_lt hh] using h0
  have hpop : q.pop S =
      (true, some v, ⟨q.elements_, q.size_ - 1, (q.head_ + 1) &&& (S - 1), q.tail_⟩) := by
    simp [WaitFreeSPSCQueue.pop, hne]
    simpa [List.getD] using hv
  rw [hpop]
  refine ⟨rfl, rfl, hL, hS, ?_, ht, ?_, by omega, ?_, ?_⟩
  · show (q.head_ + 1) &&& (S - 1) < S
    rw [mask_eq_mod hpow]
    exact Nat.mod_lt _ hS
  · show q.size_ - 1 = l.length
    omega
  · show q.tail_ = (((q.head_ + 1) &&& (S - 1)) + l.length) % S
    rw [mask_eq_mod hpow, Nat.mod_add_mod, hta]
    congr 1
    omega
  · intro k hk
    show q.elements_.getD ((((q.head_ + 1) &&& (S - 1)) + k) % S) none = l[k]?
    rw [mask_eq_mod hpow, Nat.mod_add_mod]
    have h1 := hread (k + 1) (by simp [List.length_cons]; omega)
    have h2 : q.head_ + 1 + k = q.head_ + (k + 1) := by omega
    rw [h2, h1]
    simp

theorem runSPSC_inv {α : Type} {S : Nat} (hpow : ∃ k, S = 2 ^ k) :
    ∀ (ops : List (QOp α)) (q : WaitFreeSPSCQueue α) (l : List α),
      SPSCInv S q l → inFlightOk S l.length ops = true →
      ∃ lr, SPSCInv S (runSPSC S q ops).1 lr ∧
        l ++ pushedOf ops = (runSPSC S q ops).2 ++ lr := by
  intro ops
  induction ops with
  | nil =>
      intro q l h _
      exact ⟨l, h, by simp [runSPSC, pushedOf]⟩
  | cons op rest ih =>
      intro q l h hd
      cases op with
      | push v =>
          simp only [inFlightOk, Bool.and_eq_true, decide_eq_true_eq] at hd
          have h2 := spscInv_push hpow h hd.1 v
          obtain ⟨lr, h3, h4⟩ := ih (q.push S v) (l ++ [v]) h2
            (by simpa [List.length_append] using hd.2)
          refine ⟨lr, by simpa [runSPSC] using h3, ?_⟩
          have h5 : l ++ pushedOf (QOp.push v :: rest) = (l ++ [v]) ++ pushedOf rest := by
            simp [pushedOf]
          rw [h5, h4]
          simp [runSPSC]
      | pop =>
          cases l with
          | nil =>
              have hp : q.pop S = (false, none, q) := spsc_pop_zero h.2.2.2.2.1
              simp only [inFlightOk] at hd
              obtain ⟨lr, h3, h4⟩ := ih q [] h (by simpa using hd)
              refine ⟨lr, by simpa [runSPSC, hp] using h3, ?_⟩
              simpa [runSPSC, hp, pushedOf] using h4
          | cons v t =>
              obtain ⟨h1, h2, h3⟩ := spscInv_pop_cons hpow h
              simp only [inFlightOk, List.length_cons, Nat.add_sub_cancel] at hd
              obtain ⟨lr, h4, h5⟩ := ih (q.pop S).2.2 t h3 hd
              refine ⟨lr, by simpa [runSPSC] using h4, ?_⟩
              simp only [runSPSC, pushedOf, h1, if_true, h2, Option.toList_some]
              simpa using h5

/-- C1: SPSC FIFO.  For every sequence of push and pop operations executed
sequentially on a fresh SPSC queue, with the producer never pushing while the
size counter has reached S, the sequence of values returned by successful
pop calls is an order-preserving prefix of the sequence of pushed values,
and when the run leaves the queue empty it equals the pushed sequence
exactly. -/
theorem spsc_fifo {α : Type} (S : Nat) (hpow : ∃ k, S = 2 ^ k) (ops : List (QOp α))
    (hd : inFlightOk S 0 ops = true) :
    (∃ lr, pushedOf ops = (runSPSC S (WaitFreeSPSCQueue.init α S) ops).2 ++ lr) ∧
    ((runSPSC S (WaitFreeSPSCQueue.init α S) ops).1.size_ = 0 →
      (runSPSC S (WaitFreeSPSCQueue.init α S) ops).2 = pushedOf ops) := by
  have h0 : 0 < S := by
    obtain ⟨k, rfl⟩ := hpow
    exact pow_pos (by omega) k
  obtain ⟨lr, hInv, heq⟩ :=
    runSPSC_inv hpow ops (WaitFreeSPSCQueue.init α S) [] (spscInv_init α S h0) hd
  refine ⟨⟨lr, by simpa using heq⟩, ?_⟩
  intro hsz
  have h5 : (runSPSC S (WaitFreeSPSCQueue.init α S) ops).1.size_ = lr.length :=
    hInv.2.2.2.2.1
  rw [hsz] at h5
  have h6 : lr = [] := List.length_eq_zero.mp h5.symm
  subst h6
  simpa using heq.symm

theorem spsc_fifo_witness :
    (∃ k, (2 : Nat) = 2 ^ k) ∧
    inFlightOk 2 0 [QOp.push (1 : Nat), QOp.push 2, QOp.pop, QOp.pop] = true ∧
    ((∃ lr, pushedOf [QOp.push (1 : Nat), QOp.push 2, QOp.pop, QOp.pop] =
        (runSPSC 2 (WaitFreeSPSCQueue.init Nat 2)
          [QOp.push 1, QOp.push 2, QOp.pop, QOp.pop]).2 ++ lr) ∧
      ((runSPSC 2 (WaitFreeSPSCQueue.init Nat 2)
          [QOp.push 1, QOp.push 2, QOp.pop, QOp.pop]).1.size_ = 0 →
        (runSPSC 2 (WaitFreeSPSCQueue.init Nat 2)
          [QOp.push 1, QOp.push 2, QOp.pop, QOp.pop]).2 =
          pushedOf [QOp.push 1, QOp.push 2, QOp.pop, QOp.pop])) :=
  ⟨⟨1, rfl⟩, by decide, spsc_fifo 2 ⟨1, rfl⟩ _ (by decide)⟩

/-- C5: SPSC size invariant.  In every state reachable by a disciplined
sequence of operations from a fresh SPSC queue, size_ equals the number of
values currently in the ring (pushes minus successful pops), it never
exceeds S, the size function returns exactly that counter, and size_ = 0
exactly when no value remains in the ring. -/
theorem spsc_size_invariant {α : Type} (S : Nat) (hpow : ∃ k, S = 2 ^ k) (ops : List (QOp α))
    (hd : inFlightOk S 0 ops = true) :
    ∃ lr, pushedOf ops = (runSPSC S (WaitFreeSPSCQueue.init α S) ops).2 ++ lr ∧
      (runSPSC S (WaitFreeSPSCQueue.init α S) ops).1.size_ = lr.length ∧
      (runSPSC S (WaitFreeSPSCQueue.init α S) ops).1.size_ +
        (runSPSC S (WaitFreeSPSCQueue.init α S) ops).2.length = (pushedOf ops).length ∧
      (runSPSC S (WaitFreeSPSCQueue.init α S) ops).1.size_ ≤ S ∧
      (runSPSC S (WaitFreeSPSCQueue.init α S) ops).1.size =
        (runSPSC S (WaitFreeSPSCQueue.init α S) ops).1.size_ ∧
      (∀ i, i < lr.length →
        (runSPSC S (WaitFreeSPSCQueue.init α S) ops).1.elements_.getD
          (((runSPSC S (WaitFreeSPSCQueue.init α S) ops).1.head_ + i) % S) none = lr[i]?) ∧
      ((runSPSC S (WaitFreeSPSCQueue.init α S) ops).1.size_ = 0 ↔ lr = []) := by
  have h0 : 0 < S := by
    obtain ⟨k, rfl⟩ := hpow
    exact pow_pos (by omega) k
  obtain ⟨lr, hInv, heq⟩ :=
    runSPSC_inv hpow ops (WaitFreeSPSCQueue.init α S) [] (spscInv_init α S h0) hd
  obtain ⟨hL, hS, hh, ht, hsz, hle, hta, hread⟩ := hInv
  refine ⟨lr, by simpa using heq, hsz, ?_, by omega, rfl, hread, ?_⟩
  · have h7 : (pushedOf ops).length =
        (runSPSC S (WaitFreeSPSCQueue.init α S) ops).2.length + lr.length := by
      have := congrArg List.length heq
      simpa [List.length_append] using this
    omega
  · constructor
    · intro h8
      rw [hsz] at h8
      exact List.length_eq_zero.mp h8
    · intro h9
      rw [hsz, h9]
      rfl

theorem spsc_size_invariant_witness :
    (∃ k, (4 : Nat) = 2 ^ k) ∧
    inFlightOk 4 0 [QOp.push (5 : Nat), QOp.push 6, QOp.pop] = true ∧
    (∃ lr, pushedOf [QOp.push (5 : Nat), QOp.push 6, QOp.pop] =
        (runSPSC 4 (WaitFreeSPSCQueue.init Nat 4) [QOp.push 5, QOp.push 6, QOp.pop]).2 ++ lr ∧
      (runSPSC 4 (WaitFreeSPSCQueue.init Nat 4) [QOp.push 5, QOp.push 6, QOp.pop]).1.size_ =
        lr.length ∧
      (runSPSC 4 (WaitFreeSPSCQueue.init Nat 4) [QOp.push 5, QOp.push 6, QOp.pop]).1.size_ +
        (runSPSC 4 (WaitFreeSPSCQueue.init Nat 4) [QOp.push 5, QOp.push 6, QOp.pop]).2.length =
        (pushedOf [QOp.push (5 : Nat), QOp.push 6, QOp.pop]).length ∧
      (runSPSC 4 (WaitFreeSPSCQueue.init Nat 4) [QOp.push 5, QOp.push 6, QOp.pop]).1.size_ ≤ 4 ∧
      (runSPSC 4 (WaitFreeSPSCQueue.init Nat 4) [QOp.push 5, QOp.push 6, QOp.pop]).1.size =
        (runSPSC 4 (WaitFreeSPSCQueue.init Nat 4) [QOp.push 5, QOp.push 6, QOp.pop]).1.size_ ∧
      (∀ i, i < lr.length →
        (runSPSC 4 (WaitFreeSPSCQueue.init Nat 4) [QOp.push 5, QOp.push 6, QOp.pop]).1.elements_.getD
          (((runSPSC 4 (WaitFreeSPSCQueue.init Nat 4)
            [QOp.push 5, QOp.push 6, QOp.pop]).1.head_ + i) % 4) none = lr[i]?) ∧
      ((runSPSC 4 (WaitFreeSPSCQueue.init Nat 4) [QOp.push 5, QOp.push 6, QOp.pop]).1.size_ = 0 ↔
        lr = [])) :=
  ⟨⟨2, rfl⟩, by decide, spsc_size_invariant 4 ⟨2, rfl⟩ _ (by decide)⟩

/-! MPSC queue: the abstraction invariant is preserved by push and pop. -/

theorem counterWrap_pos : 0 < counterWrap := pow_pos (by omega) 32

theorem mpscInv_init (α : Type) (S : Nat) (h0 : 0 < S) :
    MPSCInv S (WaitFreeMPSCQueue.init α S) [] := by
  refine ⟨List.length_replicate S _, h0, counterWrap_pos, counterWrap_pos,
    by simp [WaitFreeMPSCQueue.init], Nat.zero_le S, by simp, ?_⟩
  intro j hj _
  show ((List.replicate S (⟨none, false⟩ : MPSCElement α)).getD j defaultElem).isUsed_ = false
  rw [getD_replicate _ _ _ _ hj]

theorem mpscInv_push {α : Type} {S : Nat} {q : WaitFreeMPSCQueue α} {l : List α}
    (hpow : ∃ k, S = 2 ^ k) (hdvd : S ∣ counterWrap) (hInv : MPSCInv S q l)
    (hlen : l.length < S) (v : α) :
    MPSCInv S (q.push S v) (l ++ [v]) := by
  obtain ⟨hL, hS, hh, ht, hta, hle, hread, hfree⟩ := hInv
  have hidx : q.tail_ &&& (S - 1) = (q.head_ + l.length) % S := by
    rw [mask_eq_mod hpow, hta, Nat.mod_mod_of_dvd _ hdvd]
  have hlt : q.tail_ &&& (S - 1) < q.elements_.length := by
    rw [hidx, hL]
    exact Nat.mod_lt _ hS
  simp only [WaitFreeMPSCQueue.push]
  refine ⟨by simp [hL], hS, hh, ?_, ?_, ?_, ?_, ?_⟩
  · show (q.tail_ + 1) % counterWrap < counterWrap
    exact Nat.mod_lt _ counterWrap_pos
  · show (q.tail_ + 1) % counterWrap = (q.head_ + (l ++ [v]).length) % counterWrap
    rw [hta, Nat.mod_add_mod]
    congr 1
    simp only [List.length_append, List.length_cons, List.length_nil]
    omega
  · show (l ++ [v]).length ≤ S
    simp only [List.length_append, List.length_cons, List.length_nil]
    omega
  · intro k hk
    show (q.elements_.set (q.tail_ &&& (S - 1)) ⟨some v, true⟩).getD
      ((q.head_ + k) % S) defaultElem = ⟨(l ++ [v])[k]?, true⟩
    simp only [List.length_append, List.length_cons, List.length_nil] at hk
    rcases Nat.lt_or_ge k l.length with hk2 | hk2
    · have hne : q.tail_ &&& (S - 1) ≠ (q.head_ + k) % S := by
        rw [hidx]
        exact (offsets_mod_ne hk2 hlen).symm
      rw [getD_set_ne _ _ _ _ _ hne, hread k hk2, List.getElem?_append_left hk2]
    · have hk3 : k = l.length := by omega
      subst hk3
      rw [← hidx, getD_set_self _ _ _ _ hlt, List.getElem?_concat_length]
  · intro j hj hfar
    show ((q.elements_.set (q.tail_ &&& (S - 1)) ⟨some v, true⟩).getD j defaultElem).isUsed_ = false
    have hne : q.tail_ &&& (S - 1) ≠ j := by
      intro hcontra
      have h9 := hfar l.length
        (by simp only [List.length_append, List.length_cons, List.length_nil]; omega)
      exact h9 (by rw [← hcontra, hidx])
    rw [getD_set_ne _ _ _ _ _ hne]
    apply hfree j hj
    intro k hk
    exact hfar k (by simp only [List.length_append, List.length_cons, List.length_nil]; omega)

theorem mpscInv_pop_nil {α : Type} {S : Nat} {q : WaitFreeMPSCQueue α}
    (hpow : ∃ k, S = 2 ^ k) (hInv : MPSCInv S q []) :
    q.pop S = (false, none, q) := by
  obtain ⟨hL, hS, hh, ht, hta, hle, hread, hfree⟩ := hInv
  have hu : (q.elements_.getD (q.head_ &&& (S - 1)) defaultElem).isUsed_ = false := by
    rw [mask_eq_mod hpow]
    apply hfree _ (Nat.mod_lt _ hS)
    intro k hk
    simp at hk
  simp only [WaitFreeMPSCQueue.pop]
  rw [if_pos hu, mod_roundtrip hh]

theorem mpscInv_pop_cons {α : Type} {S : Nat} {q : WaitFreeMPSCQueue α} {v : α} {l : List α}
    (hpow : ∃ k, S = 2 ^ k) (hdvd : S ∣ counterWrap) (hInv : MPSCInv S q (v :: l)) :
    (q.pop S).1 = true ∧ (q.pop S).2.1 = some v ∧ MPSCInv S (q.pop S).2.2 l := by
  obtain ⟨hL, hS, hh, ht, hta, hle, hread, hfree⟩ := hInv
  simp only [List.length_cons] at hta hle
  have hidx : q.head_ &&& (S - 1) = q.head_ % S := mask_eq_mod hpow _
  have hslot : q.elements_.getD (q.head_ % S) defaultElem = ⟨some v, true⟩ := by
    have h0 := hread 0 (by simp)
    simpa using h0
  have hlt : q.head_ % S < q.elements_.length := by
    rw [hL]
    exact Nat.mod_lt _ hS
  have hpop : q.pop S = (true, some v,
      ⟨q.elements_.set (q.head_ % S) ⟨some v, false⟩, (q.head_ + 1) % counterWrap, q.tail_⟩) := by
    simp only [WaitFreeMPSCQueue.pop, hidx, hslot]
    simp
  rw [hpop]
  refine ⟨rfl, rfl, by simp [hL], hS, ?_, ht, ?_, by omega, ?_, ?_⟩
  · show (q.head_ + 1) % counterWrap < counterWrap
    exact Nat.mod_lt _ counterWrap_pos
  · show q.tail_ = ((q.head_ + 1) % counterWrap + l.length) % counterWrap
    rw [Nat.mod_add_mod, hta]
    congr 1
    omega
  · intro k hk
    show (q.elements_.set (q.head_ % S) ⟨some v, false⟩).getD
      (((q.head_ + 1) % counterWrap + k) % S) defaultElem = ⟨l[k]?, true⟩
    rw [add_mod_mod_of_dvd _ _ hdvd]
    have h2 : q.head_ + 1 + k = q.head_ + (k + 1) := by omega
    rw [h2]
    have hne : q.head_ % S ≠ (q.head_ + (k + 1)) % S := by
      have h3 := offsets_mod_ne (a := q.head_) (show 0 < k + 1 by omega) (show k + 1 < S by omega)
      simpa using h3
    rw [getD_set_ne _ _ _ _ _ hne]
    have h4 := hread (k + 1) (by simp only [List.length_cons]; omega)
    rw [h4]
    simp
  · show ∀ j, j < S → (∀ k, k < l.length → j ≠ ((q.head_ + 1) % counterWrap + k) % S) →
      (((q.elements_.set (q.head_ % S) ⟨some v, false⟩).getD j defaultElem)).isUsed_ = false
    intro j hj hfar
    rcases eq_or_ne (q.head_ % S) j with he | hne
    · rw [← he, getD_set_self _ _ _ _ hlt]
    · rw [getD_set_ne _ _ _ _ _ hne]
      apply hfree j hj
      intro k hk
      simp only [List.length_cons] at hk
      cases k with
      | zero =>
          simpa using hne.symm
      | succ k2 =>
          have h5 := hfar k2 (by omega)
          rw [add_mod_mod_of_dvd _ _ hdvd] at h5
          have h6 : q.head_ + 1 + k2 = q.head_ + (k2 + 1) := by omega
          rw [h6] at h5
          exact h5

theorem runMPSC_inv {α : Type} {S : Nat} (hpow : ∃ k, S = 2 ^ k) (hdvd : S ∣ counterWrap) :
    ∀ (ops : List (QOp α)) (q : WaitFreeMPSCQueue α) (l : List α),
      MPSCInv S q l → inFlightOk S l.length ops = true →
      ∃ lr, MPSCInv S (runMPSC S q ops).1 lr ∧
        l ++ pushedOf ops = (runMPSC S q ops).2 ++ lr := by
  intro ops
  induction ops with
  | nil =>
      intro q l h _
      exact ⟨l, h, by simp [runMPSC, pushedOf]⟩
  | cons op rest ih =>
      intro q l h hd
      cases op with
      | push v =>
          simp only [inFlightOk, Bool.and_eq_true, decide_eq_true_eq] at hd
          have h2 := mpscInv_push hpow hdvd h hd.1 v
          obtain ⟨lr, h3, h4⟩ := ih (q.push S v) (l ++ [v]) h2
            (by simpa [List.length_append] using hd.2)
          refine ⟨lr, by simpa [runMPSC] using h3, ?_⟩
          have h5 : l ++ pushedOf (QOp.push v :: rest) = (l ++ [v]) ++ pushedOf rest := by
            simp [pushedOf]
          rw [h5, h4]
          simp [runMPSC]
      | pop =>
          cases l with
          | nil =>
              have hp : q.pop S = (false, none, q) := mpscInv_pop_nil hpow h
              simp only [inFlightOk] at hd
              obtain ⟨lr, h3, h4⟩ := ih q [] h (by simpa using hd)
              refine ⟨lr, by simpa [runMPSC, hp] using h3, ?_⟩
              simpa [runMPSC, hp, pushedOf] using h4
          | cons v t =>
              obtain ⟨h1, h2, h3⟩ := mpscInv_pop_cons hpow hdvd h
              simp only [inFlightOk, List.length_cons, Nat.add_sub_cancel] at hd
              obtain ⟨lr, h4, h5⟩ := ih (q.pop S).2.2 t h3 hd
              refine ⟨lr, by simpa [runMPSC] using h4, ?_⟩
              simp only [runMPSC, pushedOf, h1, if_true, h2, Option.toList_some]
              simpa using h5

theorem drainMPSC_spec {α : Type} {S : Nat} (hpow : ∃ k, S = 2 ^ k) (hdvd : S ∣ counterWrap) :
    ∀ (l : List α) (q : WaitFreeMPSCQueue α) (fuel : Nat),
      MPSCInv S q l → l.length ≤ fuel →
      (drainMPSC S fuel q).2 = l ∧ MPSCInv S (drainMPSC S fuel q).1 [] := by
  intro l
  induction l with
  | nil =>
      intro q fuel hInv _
      cases fuel with
      | zero => exact ⟨rfl, hInv⟩
      | succ f =>
          have hp := mpscInv_pop_nil hpow hInv
          exact ⟨by simp [drainMPSC, hp], by simpa [drainMPSC, hp] using hInv⟩
  | cons v t ih =>
      intro q fuel hInv hfuel
      cases fuel with
      | zero =>
          simp only [List.length_cons] at hfuel
          omega
      | succ f =>
          obtain ⟨h1, h2, h3⟩ := mpscInv_pop_cons hpow hdvd hInv
          obtain ⟨ih1, ih2⟩ := ih (q.pop S).2.2 f h3
            (by simp only [List.length_cons] at hfuel; omega)
          refine ⟨?_, by simpa [drainMPSC, h1] using ih2⟩
          simp [drainMPSC, h1, h2, ih1]

/-- C2: MPSC conservation.  For every sequential execution from a fresh MPSC
queue obeying the dimensioning discipline (never more than S elements in
flight), followed by calling pop until it reports empty, the multiset of all
values returned by successful pops equals the multiset of pushed values: no
value is lost, none is returned twice, and every popped value was pushed. -/
theorem mpsc_conservation {α : Type} (S : Nat) (hpow : ∃ k, S = 2 ^ k)
    (hdvd : S ∣ counterWrap) (ops : List (QOp α)) (hd : inFlightOk S 0 ops = true) :
    Multiset.ofList ((runMPSC S (WaitFreeMPSCQueue.init α S) ops).2 ++
        (drainMPSC S S (runMPSC S (WaitFreeMPSCQueue.init α S) ops).1).2) =
      Multiset.ofList (pushedOf ops) := by
  have h0 : 0 < S := by
    obtain ⟨k, rfl⟩ := hpow
    exact pow_pos (by omega) k
  obtain ⟨lr, hInv, heq⟩ :=
    runMPSC_inv hpow hdvd ops (WaitFreeMPSCQueue.init α S) [] (mpscInv_init α S h0) hd
  obtain ⟨hdr, _⟩ := drainMPSC_spec hpow hdvd lr (runMPSC S (WaitFreeMPSCQueue.init α S) ops).1 S
    hInv hInv.2.2.2.2.2.1
  rw [hdr]
  have h6 : (runMPSC S (WaitFreeMPSCQueue.init α S) ops).2 ++ lr = pushedOf ops := by
    simpa using heq.symm
  rw [h6]

theorem mpsc_conservation_witness :
    (∃ k, (4 : Nat) = 2 ^ k) ∧ (4 : Nat) ∣ counterWrap ∧
    inFlightOk 4 0 [QOp.push (7 : Nat), QOp.pop, QOp.push 8, QOp.push 9, QOp.pop] = true ∧
    Multiset.ofList ((runMPSC 4 (WaitFreeMPSCQueue.init Nat 4)
        [QOp.push 7, QOp.pop, QOp.push 8, QOp.push 9, QOp.pop]).2 ++
      (drainMPSC 4 4 (runMPSC 4 (WaitFreeMPSCQueue.init Nat 4)
        [QOp.push 7, QOp.pop, QOp.push 8, QOp.push 9, QOp.pop]).1).2) =
      Multiset.ofList (pushedOf [QOp.push (7 : Nat), QOp.pop, QOp.push 8, QOp.push 9, QOp.pop]) :=
  ⟨⟨2, rfl⟩, ⟨2 ^ 30, by decide⟩, by decide,
    mpsc_conservation 4 ⟨2, rfl⟩ ⟨2 ^ 30, by decide⟩ _ (by decide)⟩

theorem mpsc_pop_eq_of_used {α : Type} {S : Nat} {q : WaitFreeMPSCQueue α}
    (hpow : ∃ k, S = 2 ^ k)
    (hu : (q.elements_.getD (q.head_ % S) defaultElem).isUsed_ = true) :
    q.pop S = (true, (q.elements_.getD (q.head_ % S) defaultElem).value_,
      ⟨q.elements_.set (q.head_ % S)
          ⟨(q.elements_.getD (q.head_ % S) defaultElem).value_, false⟩,
        (q.head_ + 1) % counterWrap, q.tail_⟩) := by
  simp only [WaitFreeMPSCQueue.pop, mask_eq_mod hpow]
  rw [if_neg (by rw [hu]; simp)]

/-- C4: empty-pop atomicity.  On any MPSC state with an in-range head counter
whose next claimed slot is unused, pop returns false and leaves the whole
state unchanged (the head reservation made by the fetch-add is rolled back by
the fetch-sub, so head, tail and every slot flag are as before), and a second
pop returns false again; on any SPSC state with size_ = 0, pop returns false
with the state unchanged, and again on repetition. -/
theorem pop_empty_noop {α : Type} (S S2 : Nat) (qm : WaitFreeMPSCQueue α)
    (qs : WaitFreeSPSCQueue α) (hh : qm.head_ < counterWrap)
    (he : (qm.elements_.getD (qm.head_ &&& (S - 1)) defaultElem).isUsed_ = false)
    (hs : qs.size_ = 0) :
    qm.pop S = (false, none, qm) ∧ ((qm.pop S).2.2).pop S = (false, none, qm) ∧
    qs.pop S2 = (false, none, qs) ∧ ((qs.pop S2).2.2).pop S2 = (false, none, qs) := by
  have h1 : qm.pop S = (false, none, qm) := by
    simp only [WaitFreeMPSCQueue.pop]
    rw [if_pos he, mod_roundtrip hh]
  have h2 : qs.pop S2 = (false, none, qs) := spsc_pop_zero hs
  exact ⟨h1, by rw [h1]; exact h1, h2, by rw [h2]; exact h2⟩

theorem pop_empty_noop_witness :
    (WaitFreeMPSCQueue.init Nat 2).head_ < counterWrap ∧
    ((WaitFreeMPSCQueue.init Nat 2).elements_.getD
      ((WaitFreeMPSCQueue.init Nat 2).head_ &&& (2 - 1)) defaultElem).isUsed_ = false ∧
    (WaitFreeSPSCQueue.init Nat 2).size_ = 0 ∧
    ((WaitFreeMPSCQueue.init Nat 2).pop 2 = (false, none, WaitFreeMPSCQueue.init Nat 2) ∧
      (((WaitFreeMPSCQueue.init Nat 2).pop 2).2.2).pop 2 =
        (false, none, WaitFreeMPSCQueue.init Nat 2) ∧
      (WaitFreeSPSCQueue.init Nat 2).pop 2 = (false, none, WaitFreeSPSCQueue.init Nat 2) ∧
      (((WaitFreeSPSCQueue.init Nat 2).pop 2).2.2).pop 2 =
        (false, none, WaitFreeSPSCQueue.init Nat 2)) :=
  ⟨by decide, by decide, rfl,
    pop_empty_noop 2 2 (WaitFreeMPSCQueue.init Nat 2) (WaitFreeSPSCQueue.init Nat 2)
      (by decide) (by decide) rfl⟩

/-- C7: empty and pop agree.  For every MPSC state, empty returns true
exactly when a pop issued from the same state (with no intervening push)
would return false: both probe the isUsed_ flag of the slot selected by the
current head counter masked with S-1, and empty performs no state update. -/
theorem mpsc_empty_iff_pop_fails {α : Type} (S : Nat) (q : WaitFreeMPSCQueue α) :
    q.empty S = true ↔ (q.pop S).1 = false := by
  simp only [WaitFreeMPSCQueue.empty, WaitFreeMPSCQueue.pop]
  cases hb : (q.elements_.getD (q.head_ &&& (S - 1)) defaultElem).isUsed_ <;> simp [hb]

/-- C6: MPSC slot state machine.  In every reachable MPSC state (one
satisfying the abstraction invariant), under the dimensioning precondition
the next push flips exactly the isUsed_ flag of the slot reserved by the
tail counter from 0 to 1 (the flag was 0 there) while writing the value,
a successful pop flips exactly the claimed head slot from 1 to 0 (the flag
was 1 there) while transferring the value out, a failed pop changes nothing,
and a flag is 1 exactly on the slots holding the values currently owned by
the queue. -/
theorem mpsc_slot_state_machine {α : Type} {S : Nat} {q : WaitFreeMPSCQueue α} {l : List α}
    (hpow : ∃ k, S = 2 ^ k) (hdvd : S ∣ counterWrap) (hInv : MPSCInv S q l) (v : α) :
    (l.length < S →
      (q.elements_.getD (q.tail_ &&& (S - 1)) defaultElem).isUsed_ = false ∧
      (q.push S v).elements_ = q.elements_.set (q.tail_ &&& (S - 1)) ⟨some v, true⟩ ∧
      (q.push S v).head_ = q.head_) ∧
    ((q.pop S).1 = true →
      (q.elements_.getD (q.head_ &&& (S - 1)) defaultElem).isUsed_ = true ∧
      (q.pop S).2.2.elements_ = q.elements_.set (q.head_ &&& (S - 1))
        ⟨(q.elements_.getD (q.head_ &&& (S - 1)) defaultElem).value_, false⟩) ∧
    ((q.pop S).1 = false → (q.pop S).2.2 = q) ∧
    (∀ i, i < S → ((q.elements_.getD i defaultElem).isUsed_ = true ↔
      ∃ kk, kk < l.length ∧ i = (q.head_ + kk) % S ∧
        (q.elements_.getD i defaultElem).value_ = l[kk]?)) := by
  obtain ⟨hL, hS, hh, ht, hta, hle, hread, hfree⟩ := hInv
  have hInv2 : MPSCInv S q l := ⟨hL, hS, hh, ht, hta, hle, hread, hfree⟩
  have htidx : q.tail_ &&& (S - 1) = (q.head_ + l.length) % S := by
    rw [mask_eq_mod hpow, hta, Nat.mod_mod_of_dvd _ hdvd]
  have hhidx : q.head_ &&& (S - 1) = q.head_ % S := mask_eq_mod hpow _
  refine ⟨?_, ?_, ?_, ?_⟩
  · intro hlen
    refine ⟨?_, rfl, rfl⟩
    rw [htidx]
    apply hfree _ (Nat.mod_lt _ hS)
    intro k hk
    exact (offsets_mod_ne hk hlen).symm
  · intro hp
    cases l with
    | nil =>
        rw [mpscInv_pop_nil hpow hInv2] at hp
        cases hp
    | cons v2 t =>
        have hslot : q.elements_.getD (q.head_ % S) defaultElem = ⟨some v2, true⟩ := by
          have h0 := hread 0 (by simp)
          simpa using h0
        have hu : (q.elements_.getD (q.head_ % S) defaultElem).isUsed_ = true := by
          rw [hslot]
        refine ⟨by rw [hhidx]; exact hu, ?_⟩
        rw [mpsc_pop_eq_of_used hpow hu, hhidx]
  · intro hp
    cases l with
    | nil =>
        rw [mpscInv_pop_nil hpow hInv2]
    | cons v2 t =>
        have hslot : q.elements_.getD (q.head_ % S) defaultElem = ⟨some v2, true⟩ := by
          have h0 := hread 0 (by simp)
          simpa using h0
        have hu : (q.elements_.getD (q.head_ % S) defaultElem).isUsed_ = true := by
          rw [hslot]
        rw [mpsc_pop_eq_of_used hpow hu] at hp
        cases hp
  · intro i hi
    constructor
    · intro hu
      have hex : ∃ kk, kk < l.length ∧ i = (q.head_ + kk) % S := by
        by_contra hno
        push_neg at hno
        have h8 := hfree i hi hno
        rw [hu] at h8
        cases h8
      obtain ⟨kk, hkk, hik⟩ := hex
      exact ⟨kk, hkk, hik, by rw [hik, hread kk hkk]⟩
    · rintro ⟨kk, hkk, hik, _⟩
      rw [hik, hread kk hkk]

theorem mpsc_slot_state_machine_witness :
    (∃ k, (2 : Nat) = 2 ^ k) ∧ (2 : Nat) ∣ counterWrap ∧
    MPSCInv 2 ((WaitFreeMPSCQueue.init Nat 2).push 2 5) [5] ∧
    ((([5] : List Nat).length < 2 →
      (((WaitFreeMPSCQueue.init Nat 2).push 2 5).elements_.getD
        (((WaitFreeMPSCQueue.init Nat 2).push 2 5).tail_ &&& (2 - 1)) defaultElem).isUsed_ =
        false ∧
      ((((WaitFreeMPSCQueue.init Nat 2).push 2 5).push 2 9)).elements_ =
        ((WaitFreeMPSCQueue.init Nat 2).push 2 5).elements_.set
          (((WaitFreeMPSCQueue.init Nat 2).push 2 5).tail_ &&& (2 - 1)) ⟨some 9, true⟩ ∧
      ((((WaitFreeMPSCQueue.init Nat 2).push 2 5).push 2 9)).head_ =
        ((WaitFreeMPSCQueue.init Nat 2).push 2 5).head_) ∧
    ((((WaitFreeMPSCQueue.init Nat 2).push 2 5).pop 2).1 = true →
      (((WaitFreeMPSCQueue.init Nat 2).push 2 5).elements_.getD
        (((WaitFreeMPSCQueue.init Nat 2).push 2 5).head_ &&& (2 - 1)) defaultElem).isUsed_ =
        true ∧
      (((WaitFreeMPSCQueue.init Nat 2).push 2 5).pop 2).2.2.elements_ =
        ((WaitFreeMPSCQueue.init Nat 2).push 2 5).elements_.set
          (((WaitFreeMPSCQueue.init Nat 2).push 2 5).head_ &&& (2 - 1))
          ⟨(((WaitFreeMPSCQueue.init Nat 2).push 2 5).elements_.getD
            (((WaitFreeMPSCQueue.init Nat 2).push 2 5).head_ &&& (2 - 1))
              defaultElem).value_, false⟩) ∧
    ((((WaitFreeMPSCQueue.init Nat 2).push 2 5).pop 2).1 = false →
      (((WaitFreeMPSCQueue.init Nat 2).push 2 5).pop 2).2.2 =
        (WaitFreeMPSCQueue.init Nat 2).push 2 5) ∧
    (∀ i, i < 2 →
      ((((WaitFreeMPSCQueue.init Nat 2).push 2 5).elements_.getD i defaultElem).isUsed_ =
          true ↔
        ∃ kk, kk < ([5] : List Nat).length ∧
          i = (((WaitFreeMPSCQueue.init Nat 2).push 2 5).head_ + kk) % 2 ∧
          (((WaitFreeMPSCQueue.init Nat 2).push 2 5).elements_.getD i defaultElem).value_ =
            ([5] : List Nat)[kk]?))) :=
  ⟨⟨1, rfl⟩, ⟨2 ^ 31, by decide⟩,
    mpscInv_push ⟨1, rfl⟩ ⟨2 ^ 31, by decide⟩ (mpscInv_init Nat 2 (by omega)) (by decide) 5,
    mpsc_slot_state_machine ⟨1, rfl⟩ ⟨2 ^ 31, by decide⟩
      (mpscInv_push ⟨1, rfl⟩ ⟨2 ^ 31, by decide⟩ (mpscInv_init Nat 2 (by omega)) (by decide) 5) 9⟩

/-- C8 counterexample: the guard isPowerOfTwo accepts S = 0 although 0 is not
a power of two, so construction with the non-power-of-two capacity 0 is not
rejected and the claimed equivalence fails at S = 0. -/
theorem isPowerOfTwo_zero_cex : isPowerOfTwo 0 = true ∧ ¬ ∃ k, (0 : Nat) = 2 ^ k := by
  refine ⟨rfl, ?_⟩
  rintro ⟨k, h⟩
  have h1 : 0 < 2 ^ k := pow_pos (by omega) k
  omega

/-- C8 (amended): for every positive capacity s, the static guard
isPowerOfTwo s returns true exactly when s is a power of two; the guard
additionally accepts s = 0, which is not a power of two. -/
theorem isPowerOfTwo_iff {s : Nat} (hs : 0 < s) :
    isPowerOfTwo s = true ↔ ∃ k, s = 2 ^ k := by
  unfold isPowerOfTwo
  rw [beq_iff_eq]
  constructor
  · intro h
    refine ⟨s.log2, ?_⟩
    have h1 : 2 ^ s.log2 ≤ s := Nat.log2_self_le (by omega)
    have h2 : s < 2 ^ (s.log2 + 1) := Nat.lt_log2_self
    have h4 : 2 ^ (s.log2 + 1) = 2 ^ s.log2 * 2 := pow_succ 2 s.log2
    rw [h4] at h2
    by_contra hne
    have h3 : 2 ^ s.log2 < s := by omega
    have hdiv1 : s / 2 ^ s.log2 = 1 := by
      apply Nat.div_eq_of_lt_le
      · omega
      · have h5 : Nat.succ 1 * 2 ^ s.log2 = 2 ^ s.log2 * 2 := by ring
        omega
    have hdiv2 : (s - 1) / 2 ^ s.log2 = 1 := by
      apply Nat.div_eq_of_lt_le
      · omega
      · have h5 : Nat.succ 1 * 2 ^ s.log2 = 2 ^ s.log2 * 2 := by ring
        omega
    have hb1 : s.testBit s.log2 = true := by
      rw [Nat.testBit_to_div_mod, hdiv1]
      rfl
    have hb2 : (s - 1).testBit s.log2 = true := by
      rw [Nat.testBit_to_div_mod, hdiv2]
      rfl
    have hb3 := Nat.testBit_and s (s - 1) s.log2
    rw [h, Nat.zero_testBit, hb1, hb2] at hb3
    cases hb3
  · rintro ⟨k, rfl⟩
    rw [Nat.and_pow_two_sub_one_eq_mod, Nat.mod_self]

theorem isPowerOfTwo_iff_witness :
    (0 : Nat) < 4 ∧ (isPowerOfTwo 4 = true ↔ ∃ k, (4 : Nat) = 2 ^ k) :=
  ⟨by omega, isPowerOfTwo_iff (by omega)⟩

/-- C9: counter wrap.  The MPSC head and tail counters are updated modulo
2^32 (the spec's 32-bit wrap; the declared C++ type uint_fast32_t is at
least that wide), every use masks them with S-1, and the masking makes the
wrap invisible: a queue whose counters wrap modulo 2^32 is in lockstep with
the spec-side queue with unbounded monotonically increasing counters, push
and pop producing identical outputs and identical slot contents, for any
power-of-two S dividing 2^32. -/
theorem mpsc_counter_wrap {α : Type} (S : Nat) (hpow : ∃ k, S = 2 ^ k)
    (hdvd : S ∣ counterWrap) (q qI : WaitFreeMPSCQueue α) (hrel : mpscCounterRel q qI)
    (v : α) :
    (∀ x : Nat, x &&& (S - 1) = x % S) ∧
    (q.push S v).tail_ = (q.tail_ + 1) % 2 ^ 32 ∧
    mpscCounterRel (q.push S v) (mpscPushNoWrap S qI v) ∧
    (q.pop S).1 = (mpscPopNoWrap S qI).1 ∧
    (q.pop S).2.1 = (mpscPopNoWrap S qI).2.1 ∧
    mpscCounterRel (q.pop S).2.2 (mpscPopNoWrap S qI).2.2 := by
  obtain ⟨hel, hhd, htl⟩ := hrel
  have hhlt : q.head_ < counterWrap := by
    rw [hhd]
    exact Nat.mod_lt _ counterWrap_pos
  have hidx : q.head_ &&& (S - 1) = qI.head_ % S := by
    rw [mask_eq_mod hpow, hhd, Nat.mod_mod_of_dvd _ hdvd]
  have htidx : q.tail_ &&& (S - 1) = qI.tail_ % S := by
    rw [mask_eq_mod hpow, htl, Nat.mod_mod_of_dvd _ hdvd]
  have heq : q.elements_.getD (q.head_ &&& (S - 1)) defaultElem
      = qI.elements_.getD (qI.head_ % S) defaultElem := by
    rw [hidx, hel]
  refine ⟨fun x => mask_eq_mod hpow x, rfl, ⟨?_, hhd, ?_⟩, ?_⟩
  · show q.elements_.set (q.tail_ &&& (S - 1)) ⟨some v, true⟩ =
      qI.elements_.set (qI.tail_ % S) ⟨some v, true⟩
    rw [htidx, hel]
  · show (q.tail_ + 1) % counterWrap = (qI.tail_ + 1) % counterWrap
    rw [htl, Nat.mod_add_mod]
  · cases hb : (qI.elements_.getD (qI.head_ % S) defaultElem).isUsed_ with
    | false =>
        have hqpop : q.pop S = (false, none, q) := by
          simp only [WaitFreeMPSCQueue.pop]
          rw [if_pos (by rw [heq, hb]), mod_roundtrip hhlt]
        have hipop : mpscPopNoWrap S qI = (false, none, qI) := by
          simp only [mpscPopNoWrap]
          rw [if_pos (by rw [hb]), Nat.add_sub_cancel]
        refine ⟨by rw [hqpop, hipop], by rw [hqpop, hipop], ?_, ?_, ?_⟩
        · rw [hqpop, hipop]
          exact hel
        · rw [hqpop, hipop]
          exact hhd
        · rw [hqpop, hipop]
          exact htl
    | true =>
        have hqs : q.head_ % S = qI.head_ % S := by
          rw [hhd, Nat.mod_mod_of_dvd _ hdvd]
        have heq2 : q.elements_.getD (q.head_ % S) defaultElem
            = qI.elements_.getD (qI.head_ % S) defaultElem := by
          rw [hqs, hel]
        have hqpop := mpsc_pop_eq_of_used hpow (q := q) (by rw [heq2, hb])
        have hipop : mpscPopNoWrap S qI = (true,
            (qI.elements_.getD (qI.head_ % S) defaultElem).value_,
            ⟨qI.elements_.set (qI.head_ % S)
                ⟨(qI.elements_.getD (qI.head_ % S) defaultElem).value_, false⟩,
              qI.head_ + 1, qI.tail_⟩) := by
          simp only [mpscPopNoWrap]
          rw [if_neg (by rw [hb]; simp)]
        refine ⟨by rw [hqpop, hipop], ?_, ?_, ?_, ?_⟩
        · rw [hqpop, hipop]
          exact congrArg MPSCElement.value_ heq2
        · rw [hqpop, hipop]
          show q.elements_.set (q.head_ % S)
              ⟨(q.elements_.getD (q.head_ % S) defaultElem).value_, false⟩ =
            qI.elements_.set (qI.head_ % S)
              ⟨(qI.elements_.getD (qI.head_ % S) defaultElem).value_, false⟩
          rw [heq2, hqs, hel]
        · rw [hqpop, hipop]
          show (q.head_ + 1) % counterWrap = (qI.head_ + 1) % counterWrap
          rw [hhd, Nat.mod_add_mod]
        · rw [hqpop, hipop]
          exact htl

theorem mpsc_counter_wrap_witness :
    (∃ k, (2 : Nat) = 2 ^ k) ∧ (2 : Nat) ∣ counterWrap ∧
    mpscCounterRel wrapStateW wrapStateI ∧
    ((∀ x : Nat, x &&& (2 - 1) = x % 2) ∧
      (wrapStateW.push 2 5).tail_ = (wrapStateW.tail_ + 1) % 2 ^ 32 ∧
      mpscCounterRel (wrapStateW.push 2 5) (mpscPushNoWrap 2 wrapStateI 5) ∧
      (wrapStateW.pop 2).1 = (mpscPopNoWrap 2 wrapStateI).1 ∧
      (wrapStateW.pop 2).2.1 = (mpscPopNoWrap 2 wrapStateI).2.1 ∧
      mpscCounterRel (wrapStateW.pop 2).2.2 (mpscPopNoWrap 2 wrapStateI).2.2) :=
  ⟨⟨1, rfl⟩, ⟨2 ^ 31, by decide⟩, ⟨rfl, by decide, by decide⟩,
    mpsc_counter_wrap 2 ⟨1, rfl⟩ ⟨2 ^ 31, by decide⟩ wrapStateW wrapStateI
      ⟨rfl, by decide, by decide⟩ 5⟩

/-- C10: variant equivalence.  The waitfree namespace variants implement the
same algorithms as the single-header classes: on every state and input,
push, pop and empty of waitfree::mpsc_queue return exactly what
WaitFreeMPSCQueue does, and push, pop and size of waitfree::spsc_queue
return exactly what WaitFreeSPSCQueue does; behaviourally the variants
differ in nothing (their source differs only in the allocation size and
alignment handed to the allocator, which has no behavioural effect). -/
theorem variant_equivalence {α : Type} (S : Nat) (qm : WaitFreeMPSCQueue α)
    (qs : WaitFreeSPSCQueue α) (v w : α) :
    waitfree.mpsc_queue_push S qm v = qm.push S v ∧
    waitfree.mpsc_queue_pop S qm = qm.pop S ∧
    waitfree.mpsc_queue_empty S qm = qm.empty S ∧
    waitfree.spsc_queue_push S qs w = qs.push S w ∧
    waitfree.spsc_queue_pop S qs = qs.pop S ∧
    waitfree.spsc_queue_size qs = qs.size :=
  ⟨rfl, rfl, rfl, rfl, rfl, rfl⟩

theorem getD_eq_getElem {β : Type} (l : List β) (i : Nat) (d : β) (h : i < l.length) :
    l.getD i d = l[i] := by
  simp [List.getD, List.getElem?_eq_getElem h]

theorem destructor_multiset_step {α : Type} (es : List (MPSCElement α)) (i : Nat)
    (hi : i < es.length) (v : α) (hslot : es.getD i defaultElem = ⟨some v, true⟩)
    (x : Option α) :
    Multiset.ofList (es.filterMap (fun e => if e.isUsed_ then e.value_ else none)) =
      v ::ₘ Multiset.ofList ((es.set i ⟨x, false⟩).filterMap
        (fun e => if e.isUsed_ then e.value_ else none)) := by
  have hget : es[i] = (⟨some v, true⟩ : MPSCElement α) := by
    rw [← getD_eq_getElem es i defaultElem hi, hslot]
  have hdecomp : es = es.take i ++ es[i] :: es.drop (i + 1) := by
    conv_lhs => rw [← List.take_append_drop i es]
    rw [List.drop_eq_getElem_cons hi]
  have hset : es.set i ⟨x, false⟩ = es.take i ++ ⟨x, false⟩ :: es.drop (i + 1) :=
    List.set_eq_take_cons_drop _ hi
  conv_lhs => rw [hdecomp]
  rw [hset, List.filterMap_append, List.filterMap_append, hget]
  have hcons1 : ((⟨some v, true⟩ : MPSCElement α) :: es.drop (i + 1)).filterMap
      (fun e => if e.isUsed_ then e.value_ else none) =
      v :: (es.drop (i + 1)).filterMap (fun e => if e.isUsed_ then e.value_ else none) := by
    simp [List.filterMap_cons]
  have hcons2 : ((⟨x, false⟩ : MPSCElement α) :: es.drop (i + 1)).filterMap
      (fun e => if e.isUsed_ then e.value_ else none) =
      (es.drop (i + 1)).filterMap (fun e => if e.isUsed_ then e.value_ else none) := by
    simp [List.filterMap_cons]
  rw [hcons1, hcons2]
  exact Multiset.coe_eq_coe.mpr List.perm_middle

theorem mpsc_teardown_nil {α : Type} {S : Nat} {q : WaitFreeMPSCQueue α}
    (hInv : MPSCInv S q []) :
    q.destructorDestroyed false = [] := by
  obtain ⟨hL, hS, hh, ht, hta, hle, hread, hfree⟩ := hInv
  unfold WaitFreeMPSCQueue.destructorDestroyed
  rw [if_neg (by simp)]
  apply List.filterMap_eq_nil_iff.mpr
  intro e he
  obtain ⟨j, hj, hje⟩ := List.mem_iff_getElem.mp he
  have hu : (q.elements_.getD j defaultElem).isUsed_ = false := by
    apply hfree j (by omega)
    intro k hk
    simp at hk
  rw [getD_eq_getElem _ _ _ hj] at hu
  rw [← hje]
  simp [hu]

theorem mpsc_teardown_multiset {α : Type} {S : Nat} (hpow : ∃ k, S = 2 ^ k)
    (hdvd : S ∣ counterWrap) :
    ∀ (l : List α) (q : WaitFreeMPSCQueue α), MPSCInv S q l →
      Multiset.ofList (q.destructorDestroyed false) = Multiset.ofList l := by
  intro l
  induction l with
  | nil =>
      intro q hInv
      rw [mpsc_teardown_nil hInv]
  | cons v t ih =>
      intro q hInv
      obtain ⟨h1, h2, h3⟩ := mpscInv_pop_cons hpow hdvd hInv
      obtain ⟨hL, hS, hh, ht, hta, hle, hread, hfree⟩ := hInv
      have hslot : q.elements_.getD (q.head_ % S) defaultElem = ⟨some v, true⟩ := by
        have h0 := hread 0 (by simp)
        simpa using h0
      have hu : (q.elements_.getD (q.head_ % S) defaultElem).isUsed_ = true := by
        rw [hslot]
      have hpop := mpsc_pop_eq_of_used hpow (q := q) hu
      have ihq := ih (q.pop S).2.2 h3
      rw [hpop] at ihq
      have ihq2 : Multiset.ofList ((q.elements_.set (q.head_ % S)
          ⟨(q.elements_.getD (q.head_ % S) defaultElem).value_, false⟩).filterMap
          (fun e => if e.isUsed_ then e.value_ else none)) = Multiset.ofList t := ihq
      have hstep := destructor_multiset_step q.elements_ (q.head_ % S)
        (by rw [hL]; exact Nat.mod_lt _ hS) v hslot
        ((q.elements_.getD (q.head_ % S) defaultElem).value_)
      show Multiset.ofList (q.elements_.filterMap
        (fun e => if e.isUsed_ then e.value_ else none)) = Multiset.ofList (v :: t)
      rw [hstep, ihq2]
      rfl

theorem spsc_teardown_list {α : Type} {S : Nat} (hpow : ∃ k, S = 2 ^ k) :
    ∀ (l : List α) (q : WaitFreeSPSCQueue α), SPSCInv S q l →
      WaitFreeSPSCQueue.destructorDestroyed S false q = l := by
  intro l
  induction l with
  | nil =>
      intro q hInv
      obtain ⟨hL, hS, hh, ht, hsz, hle, hta, hread⟩ := hInv
      unfold WaitFreeSPSCQueue.destructorDestroyed
      rw [if_neg (by simp)]
      rw [hsz]
      simp
  | cons v t ih =>
      intro q hInv
      obtain ⟨h1, h2, h3⟩ := spscInv_pop_cons hpow hInv
      obtain ⟨hL, hS, hh, ht, hsz, hle, hta, hread⟩ := hInv
      simp only [List.length_cons] at hsz
      have ihq := ih (q.pop S).2.2 h3
      have hne : ¬ q.size_ = 0 := by omega
      have hpop : (q.pop S).2.2 =
          ⟨q.elements_, q.size_ - 1, (q.head_ + 1) &&& (S - 1), q.tail_⟩ := by
        simp [WaitFreeSPSCQueue.pop, hne]
      rw [hpop] at ihq
      have ihq2 : (List.range (q.size_ - 1)).filterMap
          (fun i => q.elements_.getD ((((q.head_ + 1) &&& (S - 1)) + i) &&& (S - 1)) none) =
          t := ihq
      show (List.range q.size_).filterMap
        (fun i => q.elements_.getD ((q.head_ + i) &&& (S - 1)) none) = v :: t
      rw [hsz, List.range_succ_eq_map]
      have hf0 : q.elements_.getD (q.head_ &&& (S - 1)) none = some v := by
        have h0 := hread 0 (by simp)
        rw [mask_eq_mod hpow]
        simpa using h0
      have hf0b : q.elements_[q.head_ &&& (S - 1)]?.getD none = some v := by
        simpa [List.getD] using hf0
      have hc : (0 :: (List.range t.length).map Nat.succ).filterMap
          (fun i => q.elements_.getD ((q.head_ + i) &&& (S - 1)) none) =
          v :: ((List.range t.length).map Nat.succ).filterMap
            (fun i => q.elements_.getD ((q.head_ + i) &&& (S - 1)) none) := by
        simp [List.filterMap_cons, hf0b]
      rw [hc, List.filterMap_map]
      have hlen : q.size_ - 1 = t.length := by omega
      rw [hlen] at ihq2
      have hcong : (List.range t.length).filterMap
          ((fun i => q.elements_.getD ((q.head_ + i) &&& (S - 1)) none) ∘ Nat.succ) =
          (List.range t.length).filterMap
            (fun i => q.elements_.getD ((((q.head_ + 1) &&& (S - 1)) + i) &&& (S - 1)) none) := by
        apply List.filterMap_congr
        intro a _
        show q.elements_.getD ((q.head_ + Nat.succ a) &&& (S - 1)) none =
          q.elements_.getD ((((q.head_ + 1) &&& (S - 1)) + a) &&& (S - 1)) none
        rw [mask_eq_mod hpow, mask_eq_mod hpow, mask_eq_mod hpow, Nat.mod_add_mod]
        have hadd : q.head_ + Nat.succ a = q.head_ + 1 + a := by omega
        rw [hadd]
      rw [hcong, ihq2]

/-- C3 counterexample: with a move-assignable, non-trivially-destructible
element type, pop transfers the value by move assignment and never runs the
destructor of the slot object, and queue teardown skips the slot because its
isUsed_ flag is already 0; so after pushing one value and popping it, the
lifecycle destroys nothing at all, and a construction counter would end one
above its pre-use value instead of returning to it. -/
theorem mpsc_dtor_move_cex :
    pushedOf [QOp.push (7 : Nat), QOp.pop] = [7] ∧
    mpscDestroyedTotal 2 true false [QOp.push (7 : Nat), QOp.pop] = [] ∧
    Multiset.ofList (mpscDestroyedTotal 2 true false [QOp.push (7 : Nat), QOp.pop]) ≠
      Multiset.ofList (pushedOf [QOp.push (7 : Nat), QOp.pop]) := by
  decide

/-- C3 (amended): destructor balance holds for element types that are not
move-assignable (the pop path copies the value out and, for non-trivially
destructible types, destroys the slot object in place).  For such types,
over any disciplined sequence of pushes and pops on either queue followed by
queue destruction, the multiset of destroyed values equals the multiset of
constructed values — each constructed value is destroyed exactly once,
whether it was drained by pop or abandoned in the queue — so a construction
counter returns to its pre-use value.  For move-assignable types with a
non-trivial destructor the code never destroys a popped slot, and the
balance fails (see the counterexample). -/
theorem destructor_balance {α : Type} (S : Nat) (hpow : ∃ k, S = 2 ^ k)
    (hdvd : S ∣ counterWrap) (ops : List (QOp α)) (hd : inFlightOk S 0 ops = true) :
    Multiset.ofList (mpscDestroyedTotal S false false ops) =
      Multiset.ofList (pushedOf ops) ∧
    Multiset.ofList (spscDestroyedTotal S false false ops) =
      Multiset.ofList (pushedOf ops) := by
  have h0 : 0 < S := by
    obtain ⟨k, rfl⟩ := hpow
    exact pow_pos (by omega) k
  constructor
  · obtain ⟨lr, hInv, heq⟩ :=
      runMPSC_inv hpow hdvd ops (WaitFreeMPSCQueue.init α S) [] (mpscInv_init α S h0) hd
    have htd := mpsc_teardown_multiset hpow hdvd lr
      (runMPSC S (WaitFreeMPSCQueue.init α S) ops).1 hInv
    have hpl : (runMPSC S (WaitFreeMPSCQueue.init α S) ops).2 ++ lr = pushedOf ops := by
      simpa using heq.symm
    show Multiset.ofList ((runMPSC S (WaitFreeMPSCQueue.init α S) ops).2 ++
        (runMPSC S (WaitFreeMPSCQueue.init α S) ops).1.destructorDestroyed false) =
      Multiset.ofList (pushedOf ops)
    calc Multiset.ofList ((runMPSC S (WaitFreeMPSCQueue.init α S) ops).2 ++
          (runMPSC S (WaitFreeMPSCQueue.init α S) ops).1.destructorDestroyed false) =
        Multiset.ofList (runMPSC S (WaitFreeMPSCQueue.init α S) ops).2 +
          Multiset.ofList
            ((runMPSC S (WaitFreeMPSCQueue.init α S) ops).1.destructorDestroyed false) := by
          simp
      _ = Multiset.ofList (runMPSC S (WaitFreeMPSCQueue.init α S) ops).2 +
          Multiset.ofList lr := by rw [htd]
      _ = Multiset.ofList ((runMPSC S (WaitFreeMPSCQueue.init α S) ops).2 ++ lr) := by simp
      _ = Multiset.ofList (pushedOf ops) := by rw [hpl]
  · obtain ⟨lr, hInv, heq⟩ :=
      runSPSC_inv hpow ops (WaitFreeSPSCQueue.init α S) [] (spscInv_init α S h0) hd
    have htd := spsc_teardown_list hpow lr
      (runSPSC S (WaitFreeSPSCQueue.init α S) ops).1 hInv
    have hpl : (runSPSC S (WaitFreeSPSCQueue.init α S) ops).2 ++ lr = pushedOf ops := by
      simpa using heq.symm
    show Multiset.ofList ((runSPSC S (WaitFreeSPSCQueue.init α S) ops).2 ++
        WaitFreeSPSCQueue.destructorDestroyed S false
          (runSPSC S (WaitFreeSPSCQueue.init α S) ops).1) =
      Multiset.ofList (pushedOf ops)
    rw [htd, hpl]

theorem destructor_balance_witness :
    (∃ k, (2 : Nat) = 2 ^ k) ∧ (2 : Nat) ∣ counterWrap ∧
    inFlightOk 2 0 [QOp.push (3 : Nat), QOp.push 4, QOp.pop] = true ∧
    (Multiset.ofList (mpscDestroyedTotal 2 false false
        [QOp.push (3 : Nat), QOp.push 4, QOp.pop]) =
      Multiset.ofList (pushedOf [QOp.push (3 : Nat), QOp.push 4, QOp.pop]) ∧
    Multiset.ofList (spscDestroyedTotal 2 false false
        [QOp.push (3 : Nat), QOp.push 4, QOp.pop]) =
      Multiset.ofList (pushedOf [QOp.push (3 : Nat), QOp.push 4, QOp.pop])) :=
  ⟨⟨1, rfl⟩, ⟨2 ^ 31, by decide⟩, by decide,
    destructor_balance 2 ⟨1, rfl⟩ ⟨2 ^ 31, by decide⟩ _ (by decide)⟩
